import Mathlib

/-
Verification of the TCP transport (src/src/impl/tcptransport.cpp).

The development shallowly embeds the transport's send path, receive path,
teardown, and the candidate-connection engine as executable Lean functions.
Socket system calls are modelled by explicit oracles: a write oracle lists
the result of each successive non-blocking `::send` call, and a receive
oracle lists the result of each successive non-blocking `::recv` call.
Side effects (socket creation/closing, poll registration, state changes,
upward deliveries) are recorded in traces of actions.
-/

namespace Tcp

/-- Connection states of the transport (rtc State). -/
inductive St where
  | Connecting
  | Connected
  | Failed
  | Disconnected
deriving DecidableEq, Repr

/-- A byte of a message payload. -/
abbrev Byte := Nat

/-- A message payload: an immutable byte buffer (rtc message_ptr contents). -/
abbrev Msg := List Byte

/-- Result of one non-blocking `::send` system call, as seen by the transport:
the OS accepts some bytes (at most the requested size), reports that the call
would block (SEAGAIN / SEWOULDBLOCK), or reports a hard error. -/
inductive WRes where
  | accept (k : Nat)
  | eagain
  | err
deriving DecidableEq, Repr

/-- Write oracle: results of the successive `::send` calls on the socket.
An exhausted oracle behaves like a would-block answer. -/
abbrev WOracle := List WRes

/-- Result of TcpTransport trySendMessage: the message was fully consumed
(message set to nullptr, returning true), the socket would block (the unsent
suffix is captured as a new message view, returning false), or a hard error
occurred (a Connection closed exception is thrown). In each case the bytes
handed to the socket and the remaining oracle are recorded. -/
inductive SendOut where
  | sent (w : List Byte) (wor : WOracle)
  | blocked (rem : Msg) (w : List Byte) (wor : WOracle)
  | failed (w : List Byte) (wor : WOracle)
deriving DecidableEq, Repr

/-- TcpTransport trySendMessage: loop non-blocking `::send` on one message
until the whole message is consumed, the OS signals would-block (the unsent
suffix remains), or a hard error occurs (exception). Each `::send` call
consumes one write-oracle entry; the OS never accepts more than requested. -/
def trySendMessage : Msg → WOracle → SendOut
  | [], wor => .sent [] wor
  | m :: ms, [] => .blocked (m :: ms) [] []
  | m :: ms, .accept k :: rest =>
    let len := min k (m :: ms).length
    match trySendMessage ((m :: ms).drop len) rest with
    | .sent w wor => .sent ((m :: ms).take len ++ w) wor
    | .blocked rem w wor => .blocked rem ((m :: ms).take len ++ w) wor
    | .failed w wor => .failed ((m :: ms).take len ++ w) wor
  | m :: ms, .eagain :: rest => .blocked (m :: ms) [] rest
  | _ :: _, .err :: rest => .failed [] rest

/-- Result of TcpTransport trySendQueue: the queue fully drained (returns
true), some head message blocked and its unsent suffix was exchanged back in
at the head (returns false), or a hard error occurred while sending the
current head (the exception propagates; the already-sent entries are popped
and the throwing entry is left at the head unmodified, since the suffix
exchange never happens on the error path). -/
inductive QOut where
  | drained (q : List Msg) (w : List Byte) (wor : WOracle)
  | blocked (q : List Msg) (w : List Byte) (wor : WOracle)
  | failed (q : List Msg) (w : List Byte) (wor : WOracle)
deriving DecidableEq, Repr

/-- TcpTransport trySendQueue: peek the head message, try to send it; on
success pop it and continue; on would-block exchange the unsent suffix back
at the head and stop; on a hard error let the exception propagate. -/
def trySendQueue : List Msg → WOracle → QOut
  | [], wor => .drained [] [] wor
  | msg :: qrest, wor =>
    match trySendMessage msg wor with
    | .sent w wor1 =>
      match trySendQueue qrest wor1 with
      | .drained q w2 wor2 => .drained q (w ++ w2) wor2
      | .blocked q w2 wor2 => .blocked q (w ++ w2) wor2
      | .failed q w2 wor2 => .failed q (w ++ w2) wor2
    | .blocked rem w wor1 => .blocked (rem :: qrest) w wor1
    | .failed w wor1 => .failed (msg :: qrest) w wor1

/-- Result of TcpTransport outgoing: a boolean result with the new queue, or
a propagating hard-error exception. -/
inductive OOut where
  | ret (b : Bool) (q : List Msg) (w : List Byte) (wor : WOracle)
  | failed (q : List Msg) (w : List Byte) (wor : WOracle)
deriving DecidableEq, Repr

/-- TcpTransport outgoing: flush the queue, and if nothing is pending, try to
send the new message directly; any unsent remainder (the blocked queue, or
the unsent suffix of the new message) is pushed to the back of the queue and
the poll direction is switched to Both (returning false). -/
def outgoing (msg : Msg) (q : List Msg) (wor : WOracle) : OOut :=
  match trySendQueue q wor with
  | .drained q1 w1 wor1 =>
    match trySendMessage msg wor1 with
    | .sent w2 wor2 => .ret true q1 (w1 ++ w2) wor2
    | .blocked rem w2 wor2 => .ret false (q1 ++ [rem]) (w1 ++ w2) wor2
    | .failed w2 wor2 => .failed q1 (w1 ++ w2) wor2
  | .blocked q1 w1 wor1 => .ret false (q1 ++ [msg]) w1 wor1
  | .failed q1 w1 wor1 => .failed q1 w1 wor1

/-- Result of TcpTransport send: the Connection-is-not-open exception (thrown
before any queue or socket access), the Connection-closed exception from a
hard `::send` error, or a normal boolean return. The queue and remaining
oracle after the call are carried in every case. -/
inductive SOut where
  | notOpen (q : List Msg) (wor : WOracle)
  | closed (q : List Msg) (w : List Byte) (wor : WOracle)
  | ret (b : Bool) (q : List Msg) (w : List Byte) (wor : WOracle)
deriving DecidableEq, Repr

/-- TcpTransport send: under the send mutex, throw if the state is not
Connected (the second state check in the source is dead code and is kept);
a null message flushes the queue via trySendQueue, otherwise outgoing runs. -/
def send (st : St) (msg : Option Msg) (q : List Msg) (wor : WOracle) : SOut :=
  if st ≠ .Connected then .notOpen q wor
  else if st ≠ .Connected then .ret false q [] wor
  else
    match msg with
    | none =>
      match trySendQueue q wor with
      | .drained q1 w wor1 => .ret true q1 w wor1
      | .blocked q1 w wor1 => .ret false q1 w wor1
      | .failed q1 w wor1 => .closed q1 w wor1
    | some m =>
      match outgoing m q wor with
      | .ret b q1 w wor1 => .ret b q1 w wor1
      | .failed q1 w wor1 => .closed q1 w wor1

example : trySendMessage [1, 2, 3] [.accept 2, .eagain] =
    .blocked [3] [1, 2] [] := by decide

example : send .Connected (some [1, 2, 3]) [] [.accept 2, .eagain, .accept 5] =
    .ret false [[3]] [1, 2] [.accept 5] := by decide

example : send .Connected (some []) [[1]] [.eagain] =
    .ret false [[1], []] [] [] := by decide

/-- Poll directions of the PollService registration. -/
inductive Dir where
  | In
  | Out
  | Both
deriving DecidableEq, Repr

/-- Observable actions of the transport, recorded in traces: socket creation
and closing, PollService add/remove (add may be issued under the invalid
sentinel, recorded as none), state-change notifications, freeing of the
resolved candidate list, and upward deliveries via recv (none is the
end-of-stream signal recv(nullptr)). -/
inductive Act where
  | sockCreate (s : Nat)
  | sockClose (s : Nat)
  | pollAdd (s : Option Nat) (d : Dir)
  | pollRemove (s : Option Nat)
  | stChange (st : St)
  | freeList
  | recvUp (m : Option Msg)
deriving DecidableEq, Repr

/-- The transport's mutable fields needed by the I/O and teardown paths: the
socket handle (none is INVALID_SOCKET), the connection state, and the send
queue. -/
structure Trans where
  sock : Option Nat
  st : St
  q : List Msg
deriving DecidableEq, Repr

/-- TcpTransport close: under the send mutex, if the socket handle is live,
remove its PollService registration first, close it and set the handle to
the invalid sentinel; in every case change the state to Disconnected. -/
def close (t : Trans) : Trans × List Act :=
  match t.sock with
  | some s =>
    ({ t with sock := none, st := .Disconnected },
     [.pollRemove (some s), .sockClose s, .stChange .Disconnected])
  | none => ({ t with st := .Disconnected }, [.stChange .Disconnected])

/-- A transport together with the stopped flag of the generic transport
base. -/
structure StopT where
  t : Trans
  stopped : Bool
deriving DecidableEq, Repr

/-- Modelled from the spec: the generic transport base class (Transport, not
under src/) provides the stop entry point used by TcpTransport stop; per the
spec it is idempotent, so the base stop is modelled as returning true
exactly on the first call and false afterwards, with TcpTransport stop
returning early without calling close on the repeated calls. -/
def stop (x : StopT) : StopT × Bool × List Act :=
  if x.stopped then (x, false, [])
  else
    let (t1, acts) := close x.t
    ({ t := t1, stopped := true }, true, acts)

/-- Result of one non-blocking `::recv` system call: some returned bytes
(a zero-length return means the peer closed its side cleanly), a would-block
answer, or a hard error. -/
inductive RRes where
  | ret (bs : List Byte)
  | eagain
  | err
deriving DecidableEq, Repr

/-- Receive oracle: results of the successive `::recv` calls on the socket.
An exhausted oracle behaves like a would-block answer. -/
abbrev ROracle := List RRes

/-- TcpTransport process, case In, receive loop: `::recv` into the fixed
4096-byte buffer while the returned length is positive, delivering each read
upward as one discrete message; stop on a zero-length read (clean close,
drive a disconnect), a would-block answer (just return), or a hard error
(drive a disconnect). Returns the delivered chunks, whether the disconnect
sequence runs, and the remaining oracle. -/
def processIn : ROracle → List Msg × Bool × ROracle
  | [] => ([], false, [])
  | .ret bs :: rest =>
    let len := min bs.length 4096
    if 0 < len then
      let (ms, d, r) := processIn rest
      (bs.take 4096 :: ms, d, r)
    else ([], true, rest)
  | .eagain :: rest => ([], false, rest)
  | .err :: rest => ([], true, rest)

/-- The disconnect sequence at the bottom of TcpTransport process: remove the
poll registration of the current handle, change the state to Disconnected and
deliver the end-of-stream signal recv(nullptr) upward. The socket handle
field itself is not touched. -/
def disconnectSeq (t : Trans) : Trans × List Act :=
  ({ t with st := .Disconnected },
   [.pollRemove t.sock, .stChange .Disconnected, .recvUp none])

/-- PollService events delivered to the registered callback. -/
inductive Ev where
  | In
  | Out
  | Error
  | Timeout
deriving DecidableEq, Repr

/-- TcpTransport process: dispatch one PollService event. Error breaks into
the disconnect sequence; Timeout delivers a zero-length idle message upward;
Out flushes the queue and switches the registration back to In when it fully
drains; In runs the receive loop and breaks into the disconnect sequence on
a clean close or a hard receive error. Any exception thrown while handling
the event (a hard `::send` error in the Out flush) is caught and converted
into the same disconnect sequence. -/
def process (t : Trans) (ev : Ev) (ror : ROracle) (wor : WOracle) :
    Trans × List Act × ROracle × WOracle :=
  match ev with
  | .Error =>
    let (t1, acts) := disconnectSeq t
    (t1, acts, ror, wor)
  | .Timeout => (t, [.recvUp (some [])], ror, wor)
  | .Out =>
    match trySendQueue t.q wor with
    | .drained q1 _ wor1 => ({ t with q := q1 }, [.pollAdd t.sock .In], ror, wor1)
    | .blocked q1 _ wor1 => ({ t with q := q1 }, [], ror, wor1)
    | .failed q1 _ wor1 =>
      let (t1, acts) := disconnectSeq { t with q := q1 }
      (t1, acts, ror, wor1)
  | .In =>
    let (ms, disc, ror1) := processIn ror
    let dels := ms.map (fun m => Act.recvUp (some m))
    if disc then
      let (t1, acts) := disconnectSeq t
      (t1, dels ++ acts, ror1, wor)
    else (t, dels, ror1, wor)

/-- Outcome of one candidate address of the connect chain: `::socket`
creation fails (prepare throws before a handle exists); the non-blocking
`::connect` fails immediately with a hard error (prepare closes the new
socket and throws); the connect is pending and the poll callback later
reports a failure (an Error or Timeout event, or an Out event with a
non-zero SO_ERROR); or the connect is pending and the poll callback reports
Out with SO_ERROR zero (success). -/
inductive Cand where
  | createFail
  | prepFail
  | evtFail
  | ok
deriving DecidableEq, Repr

/-- The single PollService registration of the transport (a new add for the
same socket replaces the previous registration): the handle it was added
under, the candidate suffix captured by the callback closure (the callback's
ai is its head; empty for the steady receive registration installed after
success), and the direction. -/
structure Reg where
  sock : Option Nat
  suffix : List Cand
  dir : Dir
deriving DecidableEq, Repr

/-- Socket-related state of the connection engine: the socket handle, a
fresh-id counter for created sockets, and the current poll registration. -/
structure CSt where
  sock : Option Nat
  nextId : Nat
  reg : Option Reg
deriving DecidableEq, Repr

/-- TcpTransport connect, the attempt closure, synchronous part: on an
exhausted list free the candidate list and change the state to Failed;
otherwise run prepare (create a non-blocking socket and issue `::connect`;
on a hard failure close the socket, reset the handle to the invalid sentinel
and throw). When prepare throws, the catch block recurses into the next
candidate, and - the catch block having no return - control then still falls
through to the PollService add, registering the post-recursion handle under
a callback that captured this candidate. When prepare succeeds, the add
registers the new socket for Out readiness with the connect timeout. -/
def attemptSync : List Cand → CSt → CSt × List Act
  | [], c => (c, [.freeList, .stChange .Failed])
  | cand :: rest, c =>
    match cand with
    | .createFail =>
      let c0 : CSt := { c with sock := none }
      let (c1, acts) := attemptSync rest c0
      ({ c1 with reg := some ⟨c1.sock, cand :: rest, .Out⟩ },
       acts ++ [.pollAdd c1.sock .Out])
    | .prepFail =>
      let s := c.nextId
      let c0 : CSt := { c with sock := none, nextId := s + 1 }
      let (c1, acts) := attemptSync rest c0
      ({ c1 with reg := some ⟨c1.sock, cand :: rest, .Out⟩ },
       [.sockCreate s, .sockClose s] ++ acts ++ [.pollAdd c1.sock .Out])
    | _ =>
      let s := c.nextId
      ({ sock := some s, nextId := s + 1, reg := some ⟨some s, cand :: rest, .Out⟩ },
       [.sockCreate s, .pollAdd (some s) .Out])

/-- The first candidate of a suffix that actually owns a registered socket:
the first entry whose prepare succeeded (evtFail or ok). The PollService
event delivered on the registered socket is determined by this owner. -/
def firstLive (l : List Cand) : Option Cand :=
  l.find? (fun x => x = Cand.evtFail ∨ x = Cand.ok)

/-- Event-driven part of the connect chain: deliver the pending PollService
event for the connect-phase registration. On success free the candidate
list, change the state to Connected and switch the registration to steady In
readiness. On failure the callback removes the registration, closes the
socket, resets the handle to the invalid sentinel and recurses into the
candidates after the captured ai. No event is delivered for a registration
added under the invalid sentinel. The fuel bounds the number of delivered
events; one more than the total number of candidates always suffices. -/
def pumpFuel : Nat → CSt → CSt × List Act
  | 0, c => (c, [])
  | fuel + 1, c =>
    match c.reg with
    | some ⟨some s, suffix, .Out⟩ =>
      match firstLive suffix with
      | some .ok =>
        ({ c with reg := some ⟨some s, [], .In⟩ },
         [.freeList, .stChange .Connected, .pollAdd (some s) .In])
      | some .evtFail =>
        let c0 : CSt := { sock := none, nextId := c.nextId, reg := none }
        let (c1, acts1) := attemptSync suffix.tail c0
        let (c2, acts2) := pumpFuel fuel c1
        (c2, [.pollRemove (some s), .sockClose s] ++ acts1 ++ acts2)
      | _ => (c, [])
    | _ => (c, [])

/-- TcpTransport connect for the active mode: change the state to Connecting,
resolve the hostname to the candidate list, run the attempt chain over it and
let the PollService drive it to completion. -/
def connectRun (cands : List Cand) : CSt × List Act :=
  let c0 : CSt := { sock := none, nextId := 0, reg := none }
  let (c1, acts1) := attemptSync cands c0
  let (c2, acts2) := pumpFuel (cands.length + 1) c1
  (c2, .stChange .Connecting :: (acts1 ++ acts2))

example : (connectRun [.prepFail]).2 =
    [.stChange .Connecting, .sockCreate 0, .sockClose 0, .freeList,
     .stChange .Failed, .pollAdd none .Out] := by decide

example : (connectRun [.prepFail, .evtFail]).2 =
    [.stChange .Connecting,
     .sockCreate 0, .sockClose 0, .sockCreate 1, .pollAdd (some 1) .Out,
     .pollAdd (some 1) .Out,
     .pollRemove (some 1), .sockClose 1,
     .sockCreate 2, .pollAdd (some 2) .Out,
     .pollRemove (some 2), .sockClose 2,
     .freeList, .stChange .Failed] := by decide

example : (connectRun [.evtFail, .ok]).2 =
    [.stChange .Connecting,
     .sockCreate 0, .pollAdd (some 0) .Out,
     .pollRemove (some 0), .sockClose 0,
     .sockCreate 1, .pollAdd (some 1) .Out,
     .freeList, .stChange .Connected, .pollAdd (some 1) .In] := by decide

/-- The sequence of state-change notifications contained in a trace. -/
def stList (acts : List Act) : List St :=
  acts.filterMap fun a => match a with | .stChange s => some s | _ => none

/-- Number of candidate-list releases (freeaddrinfo calls) in a trace. -/
def freeCount (acts : List Act) : Nat :=
  (acts.filter fun a => match a with | .freeList => true | _ => false).length

/-- Number of socket creations in a trace. -/
def createCount (acts : List Act) : Nat :=
  (acts.filter fun a => match a with | .sockCreate _ => true | _ => false).length

/-- Number of socket closings in a trace. -/
def closeCount (acts : List Act) : Nat :=
  (acts.filter fun a => match a with | .sockClose _ => true | _ => false).length

/-- Number of end-of-stream deliveries (recv(nullptr)) in a trace. -/
def eosCount (acts : List Act) : Nat :=
  (acts.filter fun a => match a with | .recvUp none => true | _ => false).length

theorem stList_append (a b : List Act) : stList (a ++ b) = stList a ++ stList b :=
  List.filterMap_append a b _

theorem freeCount_append (a b : List Act) :
    freeCount (a ++ b) = freeCount a + freeCount b := by
  simp [freeCount, List.filter_append]

theorem createCount_append (a b : List Act) :
    createCount (a ++ b) = createCount a + createCount b := by
  simp [createCount, List.filter_append]

theorem closeCount_append (a b : List Act) :
    closeCount (a ++ b) = closeCount a + closeCount b := by
  simp [closeCount, List.filter_append]

theorem eosCount_append (a b : List Act) :
    eosCount (a ++ b) = eosCount a + eosCount b := by
  simp [eosCount, List.filter_append]

/-- Replace the head of a queue by its suffix after dropping k bytes. -/
def headDrop (k : Nat) : List Msg → List Msg
  | [] => []
  | m :: rest => m.drop k :: rest

theorem tsm_sent (msg : Msg) (wor : WOracle) (w : List Byte) (wor1 : WOracle)
    (h : trySendMessage msg wor = .sent w wor1) : w = msg := by
  induction wor generalizing msg w wor1 with
  | nil =>
    cases msg with
    | nil => simp [trySendMessage] at h; exact h.1
    | cons m ms => simp [trySendMessage] at h
  | cons r rest ih =>
    cases msg with
    | nil => simp [trySendMessage] at h; exact h.1
    | cons m ms =>
      cases r with
      | accept k =>
        simp only [trySendMessage] at h
        cases h2 : trySendMessage ((m :: ms).drop (min k (m :: ms).length)) rest with
        | sent w2 wor2 =>
          rw [h2] at h
          simp only [SendOut.sent.injEq] at h
          have := ih _ _ _ h2
          rw [← h.1, this, List.take_append_drop]
        | blocked rem w2 wor2 => rw [h2] at h; simp at h
        | failed w2 wor2 => rw [h2] at h; simp at h
      | eagain => simp [trySendMessage] at h
      | err => simp [trySendMessage] at h

theorem tsm_blocked (msg : Msg) (wor : WOracle) (rem : Msg) (w : List Byte)
    (wor1 : WOracle) (h : trySendMessage msg wor = .blocked rem w wor1) :
    w ++ rem = msg := by
  induction wor generalizing msg rem w wor1 with
  | nil =>
    cases msg with
    | nil => simp [trySendMessage] at h
    | cons m ms => simp [trySendMessage] at h; simp [← h.1, h.2.1]
  | cons r rest ih =>
    cases msg with
    | nil => simp [trySendMessage] at h
    | cons m ms =>
      cases r with
      | accept k =>
        simp only [trySendMessage] at h
        cases h2 : trySendMessage ((m :: ms).drop (min k (m :: ms).length)) rest with
        | sent w2 wor2 => rw [h2] at h; simp at h
        | blocked rem2 w2 wor2 =>
          rw [h2] at h
          simp only [SendOut.blocked.injEq] at h
          have := ih _ _ _ _ h2
          rw [← h.1, ← h.2.1, List.append_assoc, this, List.take_append_drop]
        | failed w2 wor2 => rw [h2] at h; simp at h
      | eagain =>
        simp [trySendMessage] at h
        simp [← h.1, h.2.1]
      | err => simp [trySendMessage] at h

/-- The unsent remainder returned by trySendMessage is exactly the unsent
suffix of the message. -/
theorem tsm_blocked_drop (msg : Msg) (wor : WOracle) (rem : Msg) (w : List Byte)
    (wor1 : WOracle) (h : trySendMessage msg wor = .blocked rem w wor1) :
    rem = msg.drop w.length := by
  have h1 := tsm_blocked msg wor rem w wor1 h
  rw [← h1, List.drop_left]

theorem tsq_drained (q : List Msg) (wor : WOracle) (q1 : List Msg)
    (w : List Byte) (wor1 : WOracle)
    (h : trySendQueue q wor = .drained q1 w wor1) : q1 = [] ∧ w = q.flatten := by
  induction q generalizing wor q1 w wor1 with
  | nil => simp [trySendQueue] at h; exact ⟨h.1, h.2.1⟩
  | cons msg qrest ih =>
    simp only [trySendQueue] at h
    split at h
    next w2 wor2 h2 =>
      split at h
      next q3 w3 wor3 h3 =>
        simp only [QOut.drained.injEq] at h
        have hih := ih _ q3 w3 wor3 h3
        have hw2 := tsm_sent msg wor w2 wor2 h2
        refine ⟨h.1 ▸ hih.1, ?_⟩
        rw [← h.2.1, hw2, hih.2]
        simp
      next q3 w3 wor3 h3 => simp at h
      next q3 w3 wor3 h3 => simp at h
    next rem w2 wor2 h2 => simp at h
    next w2 wor2 h2 => simp at h

theorem tsq_blocked (q : List Msg) (wor : WOracle) (q1 : List Msg)
    (w : List Byte) (wor1 : WOracle)
    (h : trySendQueue q wor = .blocked q1 w wor1) :
    w ++ q1.flatten = q.flatten ∧ ∃ j k, q1 = headDrop k (q.drop j) := by
  induction q generalizing wor q1 w wor1 with
  | nil => simp [trySendQueue] at h
  | cons msg qrest ih =>
    simp only [trySendQueue] at h
    split at h
    next w2 wor2 h2 =>
      split at h
      next q3 w3 wor3 h3 => simp at h
      next q3 w3 wor3 h3 =>
        simp only [QOut.blocked.injEq] at h
        have hih := ih _ q3 w3 wor3 h3
        have hw2 := tsm_sent msg wor w2 wor2 h2
        constructor
        · rw [← h.1, ← h.2.1, hw2, List.append_assoc, hih.1]
          simp
        · obtain ⟨j, k, hjk⟩ := hih.2
          exact ⟨j + 1, k, by rw [← h.1, hjk]; rfl⟩
      next q3 w3 wor3 h3 => simp at h
    next rem w2 wor2 h2 =>
      simp only [QOut.blocked.injEq] at h
      have hw := tsm_blocked msg wor rem w2 wor2 h2
      have hd := tsm_blocked_drop msg wor rem w2 wor2 h2
      constructor
      · rw [← h.1, ← h.2.1]
        simp only [List.flatten_cons, ← List.append_assoc, hw]
      · refine ⟨0, w2.length, ?_⟩
        rw [← h.1, hd]
        rfl
    next w2 wor2 h2 => simp at h

/-- Byte conservation for outgoing: the bytes handed to the socket followed
by the bytes still queued are exactly the previously queued bytes followed by
the new message. -/
theorem og_ret_flatten (m : Msg) (q : List Msg) (wor : WOracle) (b : Bool)
    (q1 : List Msg) (w : List Byte) (wor1 : WOracle)
    (h : outgoing m q wor = .ret b q1 w wor1) :
    w ++ q1.flatten = q.flatten ++ m := by
  simp only [outgoing] at h
  split at h
  next q2 w2 wor2 h2 =>
    obtain ⟨hq2, hw2⟩ := tsq_drained q wor q2 w2 wor2 h2
    split at h
    next w3 wor3 h3 =>
      simp only [OOut.ret.injEq] at h
      have := tsm_sent m wor2 w3 wor3 h3
      rw [← h.2.1, ← h.2.2.1, hq2, hw2, this]
      simp
    next rem w3 wor3 h3 =>
      simp only [OOut.ret.injEq] at h
      have := tsm_blocked m wor2 rem w3 wor3 h3
      rw [← h.2.1, ← h.2.2.1, hq2, hw2]
      simp [← this]
    next w3 wor3 h3 => simp at h
  next q2 w2 wor2 h2 =>
    simp only [OOut.ret.injEq] at h
    obtain ⟨hflat, _⟩ := tsq_blocked q wor q2 w2 wor2 h2
    rw [← h.2.1, ← h.2.2.1]
    simp only [List.flatten_append, List.flatten_cons, List.flatten_nil,
      List.append_nil, ← List.append_assoc, hflat]
  next q2 w2 wor2 h2 => simp at h

/-- Byte conservation for send in the Connected state. -/
theorem send_ret_flatten (m : Option Msg) (q : List Msg) (wor : WOracle)
    (b : Bool) (q1 : List Msg) (w : List Byte) (wor1 : WOracle)
    (h : send .Connected m q wor = .ret b q1 w wor1) :
    w ++ q1.flatten = q.flatten ++ (m.getD []) := by
  cases m with
  | none =>
    simp only [send, reduceIte, ne_eq, not_true_eq_false] at h
    simp only [Option.getD_none, List.append_nil]
    split at h
    next q2 w2 wor2 h2 =>
      simp only [SOut.ret.injEq] at h
      obtain ⟨hq2, hw2⟩ := tsq_drained q wor q2 w2 wor2 h2
      rw [← h.2.1, ← h.2.2.1, hq2, hw2]
      simp
    next q2 w2 wor2 h2 =>
      simp only [SOut.ret.injEq] at h
      obtain ⟨hflat, _⟩ := tsq_blocked q wor q2 w2 wor2 h2
      rw [← h.2.1, ← h.2.2.1, hflat]
    next q2 w2 wor2 h2 => simp at h
  | some msg =>
    simp only [send, reduceIte, ne_eq, not_true_eq_false] at h
    simp only [Option.getD_some]
    split at h
    next b2 q2 w2 wor2 h2 =>
      simp only [SOut.ret.injEq] at h
      have := og_ret_flatten msg q wor b2 q2 w2 wor2 h2
      rw [← h.2.1, ← h.2.2.1, this]
    next q2 w2 wor2 h2 => simp at h

/-- Operations on an established transport: a send call from the caller
thread, or an Out readiness event flushing the queue. -/
inductive Op where
  | sendOp (msg : Option Msg)
  | outEv
deriving DecidableEq, Repr

/-- Run a sequence of operations in the Connected state, starting from a
queue and a write oracle, collecting all bytes handed to the socket. The run
stops (returning none) if a hard socket error surfaces, since the transport
then disconnects. -/
def runOps : List Op → List Msg → WOracle → Option (List Msg × List Byte × WOracle)
  | [], q, wor => some (q, [], wor)
  | .sendOp m :: ops, q, wor =>
    match send .Connected m q wor with
    | .ret _ q1 w wor1 =>
      match runOps ops q1 wor1 with
      | some (q2, w2, wor2) => some (q2, w ++ w2, wor2)
      | none => none
    | _ => none
  | .outEv :: ops, q, wor =>
    match trySendQueue q wor with
    | .drained q1 w wor1 =>
      match runOps ops q1 wor1 with
      | some (q2, w2, wor2) => some (q2, w ++ w2, wor2)
      | none => none
    | .blocked q1 w wor1 =>
      match runOps ops q1 wor1 with
      | some (q2, w2, wor2) => some (q2, w ++ w2, wor2)
      | none => none
    | .failed _ _ _ => none

/-- The payloads submitted by a sequence of operations, in call order (null
flush calls and Out events submit nothing). -/
def payloads : List Op → List Msg
  | [] => []
  | .sendOp (some m) :: ops => m :: payloads ops
  | .sendOp none :: ops => payloads ops
  | .outEv :: ops => payloads ops

/-- Byte conservation for whole runs: socket bytes plus still-queued bytes
equal initially queued bytes plus all submitted payloads in order. -/
theorem runOps_flatten (ops : List Op) (q : List Msg) (wor : WOracle)
    (q1 : List Msg) (w : List Byte) (wor1 : WOracle)
    (h : runOps ops q wor = some (q1, w, wor1)) :
    w ++ q1.flatten = q.flatten ++ (payloads ops).flatten := by
  induction ops generalizing q wor q1 w wor1 with
  | nil =>
    simp only [runOps, Option.some.injEq, Prod.mk.injEq] at h
    rw [← h.2.1, ← h.1]
    simp [payloads]
  | cons op ops ih =>
    cases op with
    | sendOp m =>
      simp only [runOps] at h
      split at h
      next b2 q2 w2 wor2 h2 =>
        split at h
        next q3 w3 wor3 h3 =>
          simp only [Option.some.injEq, Prod.mk.injEq] at h
          have hrun := ih q2 wor2 q3 w3 wor3 h3
          have hsend := send_ret_flatten m q wor b2 q2 w2 wor2 h2
          rw [← h.2.1, ← h.1, List.append_assoc, hrun, ← List.append_assoc, hsend]
          cases m with
          | none => simp [payloads]
          | some mm => simp [payloads]
        next h3 => simp at h
      next hne => simp at h
    | outEv =>
      simp only [runOps] at h
      split at h
      next q2 w2 wor2 h2 =>
        split at h
        next q3 w3 wor3 h3 =>
          simp only [Option.some.injEq, Prod.mk.injEq] at h
          have hrun := ih q2 wor2 q3 w3 wor3 h3
          obtain ⟨hq2, hw2⟩ := tsq_drained q wor q2 w2 wor2 h2
          rw [← h.2.1, ← h.1, List.append_assoc, hrun, ← List.append_assoc, hq2, hw2]
          simp [payloads]
        next h3 => simp at h
      next q2 w2 wor2 h2 =>
        split at h
        next q3 w3 wor3 h3 =>
          simp only [Option.some.injEq, Prod.mk.injEq] at h
          have hrun := ih q2 wor2 q3 w3 wor3 h3
          obtain ⟨hflat, _⟩ := tsq_blocked q wor q2 w2 wor2 h2
          rw [← h.2.1, ← h.1, List.append_assoc, hrun, ← List.append_assoc, hflat]
          simp [payloads]
        next h3 => simp at h
      next q2 w2 wor2 h2 => simp at h

/-- The queue returned by outgoing is the drained old queue with at most the
head partially consumed, plus at most the new message (or its unsent suffix,
in which case it is the new head) appended at the back. -/
theorem og_ret_shape (m : Msg) (q : List Msg) (wor : WOracle) (b : Bool)
    (q1 : List Msg) (w : List Byte) (wor1 : WOracle)
    (h : outgoing m q wor = .ret b q1 w wor1) :
    (b = true ∧ q1 = []) ∨ (∃ k, q1 = [m.drop k]) ∨
    (∃ j k, q1 = headDrop k (q.drop j) ++ [m]) := by
  simp only [outgoing] at h
  split at h
  next q2 w2 wor2 h2 =>
    obtain ⟨hq2, _⟩ := tsq_drained q wor q2 w2 wor2 h2
    split at h
    next w3 wor3 h3 =>
      simp only [OOut.ret.injEq] at h
      exact Or.inl ⟨h.1.symm, by rw [← h.2.1, hq2]⟩
    next rem w3 wor3 h3 =>
      have hd := tsm_blocked_drop m wor2 rem w3 wor3 h3
      simp only [OOut.ret.injEq] at h
      refine Or.inr (Or.inl ⟨w3.length, ?_⟩)
      rw [← h.2.1, hq2, hd]
      rfl
    next w3 wor3 h3 => simp at h
  next q2 w2 wor2 h2 =>
    simp only [OOut.ret.injEq] at h
    obtain ⟨_, j, k, hjk⟩ := tsq_blocked q wor q2 w2 wor2 h2
    exact Or.inr (Or.inr ⟨j, k, by rw [← h.2.1, hjk]⟩)
  next q2 w2 wor2 h2 => simp at h

/-- The length of a queue is unchanged by replacing its head with a
suffix. -/
theorem headDrop_length (k : Nat) (l : List Msg) :
    (headDrop k l).length = l.length := by
  cases l <;> simp [headDrop]

/-- C1: for every sequence of send calls made in the Connected state
(together with arbitrary Out-readiness flushes), the bytes handed to the
socket followed by the still-queued bytes are exactly the concatenation of
all submitted payloads in call order; hence the socket bytes are always a
prefix of that concatenation (no reordering or interleaving), and equal it
exactly when the queue has drained, even when each underlying send call
accepts fewer bytes than requested. -/
theorem c1_send_fifo_bytes (ops : List Op) (wor : WOracle) (q1 : List Msg)
    (w : List Byte) (wor1 : WOracle)
    (h : runOps ops [] wor = some (q1, w, wor1)) :
    w ++ q1.flatten = (payloads ops).flatten ∧
    w <+: (payloads ops).flatten ∧
    (q1 = [] → w = (payloads ops).flatten) := by
  have h1 := runOps_flatten ops [] wor q1 w wor1 h
  simp only [List.flatten_nil, List.nil_append] at h1
  refine ⟨h1, ⟨q1.flatten, h1⟩, fun hq => ?_⟩
  rw [hq] at h1
  simpa using h1

theorem c1_send_fifo_bytes_witness :
    runOps [Op.sendOp (some [1, 2, 3]), Op.outEv] []
        [.accept 2, .eagain, .accept 5] = some ([], [1, 2, 3], []) ∧
    ([1, 2, 3] ++ ([] : List Msg).flatten =
        (payloads [Op.sendOp (some [1, 2, 3]), Op.outEv]).flatten ∧
      [1, 2, 3] <+: (payloads [Op.sendOp (some [1, 2, 3]), Op.outEv]).flatten ∧
      (([] : List Msg) = [] →
        [1, 2, 3] = (payloads [Op.sendOp (some [1, 2, 3]), Op.outEv]).flatten)) :=
  ⟨by decide,
   c1_send_fifo_bytes [Op.sendOp (some [1, 2, 3]), Op.outEv]
     [.accept 2, .eagain, .accept 5] [] [1, 2, 3] [] (by decide)⟩

/-- C4: a send call made while the state is not Connected throws the
Connection-is-not-open exception synchronously, with the queue unchanged and
no socket system call attempted (the write oracle is untouched). -/
theorem c4_send_not_open (st : St) (m : Option Msg) (q : List Msg)
    (wor : WOracle) (h : st ≠ .Connected) :
    send st m q wor = .notOpen q wor := by
  simp [send, h]

theorem c4_send_not_open_witness :
    St.Disconnected ≠ St.Connected ∧
    send .Disconnected (some [1]) [[2]] [.accept 3] =
      .notOpen [[2]] [.accept 3] :=
  ⟨by decide, c4_send_not_open _ _ _ _ (by decide)⟩

/-- C8: across every queue flush and every send call, at most one message is
in flight (partially sent) and it is always the logical head: a flush leaves
a suffix of the former queue with only its head possibly replaced by that
entry's unsent suffix, a drained flush leaves the empty queue, and outgoing
additionally appends at most the new message, whole at the back, or its
unsent suffix as the new head of an otherwise empty queue; all other entries
are untouched. -/
theorem c8_inflight_head (q : List Msg) (wor : WOracle) :
    (∀ q1 w wor1, trySendQueue q wor = .blocked q1 w wor1 →
      ∃ j k, q1 = headDrop k (q.drop j)) ∧
    (∀ q1 w wor1, trySendQueue q wor = .drained q1 w wor1 → q1 = []) ∧
    (∀ m b q1 w wor1, outgoing m q wor = .ret b q1 w wor1 →
      (b = true ∧ q1 = []) ∨ (∃ k, q1 = [m.drop k]) ∨
      (∃ j k, q1 = headDrop k (q.drop j) ++ [m])) :=
  ⟨fun q1 w wor1 h => (tsq_blocked q wor q1 w wor1 h).2,
   fun q1 w wor1 h => (tsq_drained q wor q1 w wor1 h).1,
   fun m b q1 w wor1 h => og_ret_shape m q wor b q1 w wor1 h⟩

theorem c8_inflight_head_witness :
    trySendQueue [[1, 2], [3]] [.accept 1, .eagain] = .blocked [[2], [3]] [1] [] ∧
    (∃ j k, [[2], [3]] = headDrop k (([[1, 2], [3]] : List Msg).drop j)) :=
  ⟨by decide,
   (c8_inflight_head [[1, 2], [3]] [.accept 1, .eagain]).1 [[2], [3]] [1] []
     (by decide)⟩

/-- C9 counterexample: in the Connected state with a queue holding one
pending message that the socket will not accept, sending an empty (but
non-null) message pushes that empty message onto the queue as a new entry,
so the queue grows from one entry to two, refuting the claim that an empty
message only flushes and never adds a queue entry. -/
theorem c9_empty_push_cex :
    send .Connected (some []) [[1]] [.eagain] = .ret false [[1], []] [] [] ∧
    ([[1], []] : List Msg).length ≠ ([[1]] : List Msg).length := by
  exact ⟨by decide, by decide⟩

/-- C9 (amended): a null message is interpreted as flush-now, draining the
queue FIFO without adding any entry and returning whether the queue fully
drained; an empty non-null message takes the normal outgoing path: when the
queue fully drains it also returns true without adding any entry, but when
the queue does not drain the empty message itself is pushed onto the queue
as a new entry and false is returned. -/
theorem c9_flush_amended (q : List Msg) (wor : WOracle) :
    (∀ q1 w wor1, trySendQueue q wor = .drained q1 w wor1 →
      send .Connected none q wor = .ret true q1 w wor1 ∧
      send .Connected (some []) q wor = .ret true q1 w wor1 ∧ q1 = []) ∧
    (∀ q1 w wor1, trySendQueue q wor = .blocked q1 w wor1 →
      send .Connected none q wor = .ret false q1 w wor1 ∧
      q1.length ≤ q.length ∧
      send .Connected (some []) q wor = .ret false (q1 ++ [[]]) w wor1) := by
  constructor
  · intro q1 w wor1 h1
    refine ⟨by simp [send, h1], by simp [send, outgoing, h1, trySendMessage],
      (tsq_drained q wor q1 w wor1 h1).1⟩
  · intro q1 w wor1 h1
    obtain ⟨_, j, k, hjk⟩ := tsq_blocked q wor q1 w wor1 h1
    refine ⟨by simp [send, h1], ?_, by simp [send, outgoing, h1]⟩
    rw [hjk, headDrop_length, List.length_drop]
    omega

theorem c9_flush_amended_witness :
    trySendQueue [[5]] [.eagain] = .blocked [[5]] [] [] ∧
    (send .Connected none [[5]] [.eagain] = .ret false [[5]] [] [] ∧
      ([[5]] : List Msg).length ≤ ([[5]] : List Msg).length ∧
      send .Connected (some []) [[5]] [.eagain] = .ret false ([[5]] ++ [[]]) [] []) :=
  ⟨by decide, (c9_flush_amended [[5]] [.eagain]).2 [[5]] [] [] (by decide)⟩

/-- C5: close is idempotent and safe from every state: after any call the
socket handle is the invalid sentinel and the state is Disconnected, a
repeated call performs no socket action and again concludes with the
transition to Disconnected, a live handle is unregistered from the poll
service before being closed, and the stop entry point closes on its first
call and returns false without error on repeated calls. -/
theorem c5_close_stop_idempotent :
    (∀ t : Trans, (close t).1.sock = none ∧ (close t).1.st = .Disconnected ∧
      (close (close t).1).1 = (close t).1 ∧
      (close (close t).1).2 = [.stChange .Disconnected] ∧
      (∀ s, t.sock = some s → (close t).2 =
        [.pollRemove (some s), .sockClose s, .stChange .Disconnected]) ∧
      (t.sock = none → (close t).2 = [.stChange .Disconnected])) ∧
    (∀ x : StopT, x.stopped = false →
      (stop x).1.t.sock = none ∧ (stop x).1.t.st = .Disconnected ∧
      (stop x).2.1 = true ∧
      stop (stop x).1 = ((stop x).1, false, [])) := by
  constructor
  · intro t
    cases hs : t.sock with
    | none => simp [close, hs]
    | some s => simp [close, hs]
  · intro x hx
    cases hs : x.t.sock with
    | none => simp [stop, close, hx, hs]
    | some s => simp [stop, close, hx, hs]

/-- State of the socket-discipline checker: the currently open socket, if
any, and whether that socket currently has a poll registration. -/
structure ChkSt where
  openS : Option Nat
  registered : Bool
deriving DecidableEq, Repr

/-- One step of the socket-discipline checker over a trace action. It rejects
(returns none) when a socket is created while another is open, when a socket
is closed that is not the open one or still has a poll registration, or when
a poll add/remove names a socket other than the open one. Actions on the
invalid sentinel and non-socket actions are accepted unchanged. -/
def chkStep (st : ChkSt) (a : Act) : Option ChkSt :=
  match a with
  | .sockCreate s => if st.openS = none then some ⟨some s, false⟩ else none
  | .sockClose s =>
    if st.openS = some s ∧ st.registered = false then some ⟨none, false⟩ else none
  | .pollAdd (some s) _ =>
    if st.openS = some s then some ⟨st.openS, true⟩ else none
  | .pollRemove (some s) =>
    if st.openS = some s then some ⟨st.openS, false⟩ else none
  | _ => some st

/-- Run the socket-discipline checker over a whole trace. -/
def chkRun (st : ChkSt) : List Act → Option ChkSt
  | [] => some st
  | a :: rest =>
    match chkStep st a with
    | some st1 => chkRun st1 rest
    | none => none

theorem chkRun_append (st : ChkSt) (xs ys : List Act) :
    chkRun st (xs ++ ys) =
      match chkRun st xs with
      | some st1 => chkRun st1 ys
      | none => none := by
  induction xs generalizing st with
  | nil => simp [chkRun]
  | cons a rest ih =>
    simp only [List.cons_append, chkRun]
    cases chkStep st a with
    | some st1 => exact ih st1
    | none => rfl

/-- The chunks the receive loop delivers upward: the maximal leading run of
positive-length reads, each clipped to the 4096-byte receive buffer. -/
def goodChunks : ROracle → List Msg
  | .ret bs :: rest =>
    if 0 < min bs.length 4096 then bs.take 4096 :: goodChunks rest else []
  | _ => []

/-- How the receive loop stops: a clean peer close (zero-length read), a hard
receive error, or a would-block answer. -/
inductive StopK where
  | clean
  | hard
  | block
deriving DecidableEq, Repr

/-- The way the receive loop over a given oracle terminates. -/
def stopKind : ROracle → StopK
  | [] => .block
  | .ret bs :: rest =>
    if 0 < min bs.length 4096 then stopKind rest else .clean
  | .eagain :: _ => .block
  | .err :: _ => .hard

theorem processIn_spec (ror : ROracle) :
    (processIn ror).1 = goodChunks ror ∧
    ((processIn ror).2.1 = true ↔ stopKind ror ≠ .block) := by
  induction ror with
  | nil => simp [processIn, goodChunks, stopKind]
  | cons r rest ih =>
    cases r with
    | ret bs =>
      by_cases hlen : 0 < min bs.length 4096
      · simpa [processIn, goodChunks, stopKind, hlen] using ih
      · simp [processIn, goodChunks, stopKind, hlen]
    | eagain => simp [processIn, goodChunks, stopKind]
    | err => simp [processIn, goodChunks, stopKind]

theorem eosCount_dels (ms : List Msg) :
    eosCount (ms.map fun m => Act.recvUp (some m)) = 0 := by
  induction ms with
  | nil => rfl
  | cons m ms ih => simp only [List.map_cons, eosCount, List.filter_cons]; exact ih

theorem closeCount_dels (ms : List Msg) :
    closeCount (ms.map fun m => Act.recvUp (some m)) = 0 := by
  induction ms with
  | nil => rfl
  | cons m ms ih => simp only [List.map_cons, closeCount, List.filter_cons]; exact ih

/-- C6: handling an In event loops non-blocking receive into the fixed
4096-byte buffer until a would-block answer, delivering each positive-length
read upward as one discrete message in order and without reassembly; a
zero-length read (clean peer close) or a hard receive error instead drives
the disconnect sequence, and in the clean-close case the transport ends
Disconnected having delivered exactly one end-of-stream notification
upward. -/
theorem c6_process_in_chunks (t : Trans) (ror : ROracle) (wor : WOracle) :
    (process t .In ror wor).2.1 =
      (goodChunks ror).map (fun m => Act.recvUp (some m)) ++
        (if stopKind ror ≠ .block then
          [.pollRemove t.sock, .stChange .Disconnected, .recvUp none]
        else []) ∧
    (stopKind ror = .clean →
      (process t .In ror wor).1.st = .Disconnected ∧
      eosCount (process t .In ror wor).2.1 = 1) ∧
    (stopKind ror = .block →
      (process t .In ror wor).1 = t ∧
      eosCount (process t .In ror wor).2.1 = 0) := by
  obtain ⟨h1, h2⟩ := processIn_spec ror
  cases hp : processIn ror with
  | mk ms rest2 =>
    obtain ⟨disc, ror1⟩ := rest2
    rw [hp] at h1 h2
    simp only at h1 h2
    cases disc with
    | true =>
      have hnb : stopKind ror ≠ .block := h2.mp rfl
      constructor
      · simp [process, hp, disconnectSeq, h1, hnb]
      · constructor
        · intro hcl
          constructor
          · simp [process, hp, disconnectSeq]
          · simp [process, hp, disconnectSeq, eosCount_append, eosCount_dels]
            rfl
        · intro hbl
          exact absurd hbl hnb
    | false =>
      have hb : stopKind ror = .block := by
        by_contra hnb
        simp [hnb] at h2
      constructor
      · simp [process, hp, h1, hb]
      · constructor
        · intro hcl
          rw [hcl] at hb
          exact absurd hb (by decide)
        · intro _
          constructor
          · simp [process, hp]
          · simp [process, hp, eosCount_dels]

theorem c6_process_in_chunks_witness :
    stopKind [.ret [1, 2], .ret []] = .clean ∧
    ((process ⟨some 3, .Connected, []⟩ .In [.ret [1, 2], .ret []] []).1.st =
        .Disconnected ∧
      eosCount (process ⟨some 3, .Connected, []⟩ .In
        [.ret [1, 2], .ret []] []).2.1 = 1) :=
  ⟨by decide,
   (c6_process_in_chunks ⟨some 3, .Connected, []⟩ [.ret [1, 2], .ret []]
     []).2.1 (by decide)⟩

/-- C10: every disconnect driven from process (an Error event, a clean-close
or hard-error receive, or the exception of a hard send error during an Out
flush) removes the poll registration and moves the state to Disconnected but
leaves the socket handle field unchanged and closes no socket; the handle is
only released by a subsequent close. -/
theorem c10_process_frame (t : Trans) (ror : ROracle) (wor : WOracle) :
    ((process t .Error ror wor).1.sock = t.sock ∧
      (process t .Error ror wor).1.st = .Disconnected ∧
      closeCount (process t .Error ror wor).2.1 = 0 ∧
      Act.pollRemove t.sock ∈ (process t .Error ror wor).2.1 ∧
      (close (process t .Error ror wor).1).1.sock = none) ∧
    (stopKind ror ≠ .block →
      (process t .In ror wor).1.sock = t.sock ∧
      (process t .In ror wor).1.st = .Disconnected ∧
      closeCount (process t .In ror wor).2.1 = 0 ∧
      Act.pollRemove t.sock ∈ (process t .In ror wor).2.1) ∧
    (∀ q1 w wor1, trySendQueue t.q wor = .failed q1 w wor1 →
      (process t .Out ror wor).1.sock = t.sock ∧
      (process t .Out ror wor).1.st = .Disconnected ∧
      closeCount (process t .Out ror wor).2.1 = 0 ∧
      Act.pollRemove t.sock ∈ (process t .Out ror wor).2.1) := by
  refine ⟨⟨?_, ?_, ?_, ?_, ?_⟩, ?_, ?_⟩
  · simp [process, disconnectSeq]
  · simp [process, disconnectSeq]
  · simp [process, disconnectSeq, closeCount]
  · simp [process, disconnectSeq]
  · cases hs : t.sock <;> simp [process, disconnectSeq, close, hs]
  · intro hnb
    obtain ⟨h1, h2⟩ := processIn_spec ror
    cases hp : processIn ror with
    | mk ms rest2 =>
      obtain ⟨disc, ror1⟩ := rest2
      rw [hp] at h1 h2
      simp only at h1 h2
      cases disc with
      | true =>
        refine ⟨by simp [process, hp, disconnectSeq], by simp [process, hp, disconnectSeq], ?_, ?_⟩
        · simp [process, hp, disconnectSeq, closeCount_append, closeCount_dels]
          rfl
        · simp [process, hp, disconnectSeq]
      | false =>
        have hb : stopKind ror = .block := by
          by_contra hnb2
          simp [hnb2] at h2
        exact absurd hb hnb
  · intro q1 w wor1 hq
    refine ⟨?_, ?_, ?_, ?_⟩ <;> simp [process, hq, disconnectSeq, closeCount]

theorem c10_process_frame_witness :
    (stopKind [.ret []] ≠ .block ∧
      ((process ⟨some 4, .Connected, [[9]]⟩ .In [.ret []] []).1.sock = some 4 ∧
        (process ⟨some 4, .Connected, [[9]]⟩ .In [.ret []] []).1.st =
          .Disconnected ∧
        closeCount (process ⟨some 4, .Connected, [[9]]⟩ .In [.ret []] []).2.1 = 0 ∧
        Act.pollRemove (some 4) ∈
          (process ⟨some 4, .Connected, [[9]]⟩ .In [.ret []] []).2.1)) :=
  ⟨by decide,
   (c10_process_frame ⟨some 4, .Connected, [[9]]⟩ [.ret []] []).2.1 (by decide)⟩

theorem firstLive_cons_dead (cand : Cand) (rest : List Cand)
    (h : ¬(cand = Cand.evtFail ∨ cand = Cand.ok)) :
    firstLive (cand :: rest) = firstLive rest := by
  simp only [firstLive]
  rw [List.find?_cons_of_neg _ (by simpa using h)]

theorem firstLive_cons_live (cand : Cand) (rest : List Cand)
    (h : cand = Cand.evtFail ∨ cand = Cand.ok) :
    firstLive (cand :: rest) = some cand := by
  simp only [firstLive]
  rw [List.find?_cons_of_pos _ (by simpa using h)]

theorem firstLive_mem (l : List Cand) (cand : Cand)
    (h : firstLive l = some cand) :
    cand ∈ l ∧ (cand = Cand.evtFail ∨ cand = Cand.ok) := by
  refine ⟨List.mem_of_find?_eq_some h, ?_⟩
  have := List.find?_some h
  simpa using this

/-- After an attempt cascade over an exhausted-to-failure candidate list (no
candidate reaching a pending connect), the trace records exactly the Failed
transition and one list release, every created socket is closed, the handle
is the invalid sentinel, and any leftover registration is under the invalid
sentinel (the fall-through add of the missing-return path). -/
theorem attempt_dead (l : List Cand) (c : CSt) (hfl : firstLive l = none)
    (hs : c.sock = none) (hr : c.reg = none) :
    stList (attemptSync l c).2 = [.Failed] ∧
    freeCount (attemptSync l c).2 = 1 ∧
    createCount (attemptSync l c).2 = closeCount (attemptSync l c).2 ∧
    (attemptSync l c).1.sock = none ∧
    ((attemptSync l c).1.reg = none ∨
      (attemptSync l c).1.reg = some ⟨none, l, .Out⟩) := by
  induction l generalizing c with
  | nil =>
    refine ⟨by simp [attemptSync, stList], by simp [attemptSync, freeCount],
      by simp [attemptSync, createCount, closeCount], by simp [attemptSync, hs],
      Or.inl (by simp [attemptSync, hr])⟩
  | cons cand rest ih =>
    have hcand : ¬(cand = Cand.evtFail ∨ cand = Cand.ok) := by
      intro hor
      rw [firstLive_cons_live cand rest hor] at hfl
      exact Option.noConfusion hfl
    have hfl2 : firstLive rest = none := by
      rw [firstLive_cons_dead cand rest hcand] at hfl
      exact hfl
    cases cand with
    | evtFail => exact absurd (Or.inl rfl) hcand
    | ok => exact absurd (Or.inr rfl) hcand
    | createFail =>
      cases ha : attemptSync rest { c with sock := none } with
      | mk c1 acts =>
        have ihh := ih { c with sock := none } hfl2 rfl hr
        rw [ha] at ihh
        obtain ⟨h1, h2, h3, h4, _⟩ := ihh
        simp only at h1 h2 h3 h4
        refine ⟨?_, ?_, ?_, ?_, Or.inr ?_⟩
        · simp only [attemptSync, ha, stList_append, h1]
          simp [stList]
        · simp only [attemptSync, ha, freeCount_append, h2]
          simp [freeCount]
        · simp only [attemptSync, ha, createCount_append, closeCount_append, h3]
          simp [createCount, closeCount]
        · simp only [attemptSync, ha]
          exact h4
        · simp only [attemptSync, ha, h4]
    | prepFail =>
      cases ha : attemptSync rest { c with sock := none, nextId := c.nextId + 1 } with
      | mk c1 acts =>
        have ihh := ih { c with sock := none, nextId := c.nextId + 1 } hfl2 rfl hr
        rw [ha] at ihh
        obtain ⟨h1, h2, h3, h4, _⟩ := ihh
        simp only at h1 h2 h3 h4
        refine ⟨?_, ?_, ?_, ?_, Or.inr ?_⟩
        · simp only [attemptSync, ha, List.append_assoc, stList_append, h1]
          simp [stList]
        · simp only [attemptSync, ha, List.append_assoc, freeCount_append, h2]
          simp [freeCount]
        · simp only [attemptSync, ha, List.append_assoc, createCount_append,
            closeCount_append, h3]
          simp [createCount, closeCount]
        · simp only [attemptSync, ha]
          exact h4
        · simp only [attemptSync, ha, h4]

/-- After an attempt cascade that reaches a candidate with a pending connect,
no state change and no list release has happened, exactly one created socket
is still open, and the transport is registered for Out readiness under that
socket with the whole suffix captured. -/
theorem attempt_live (l : List Cand) (c : CSt) (cand : Cand)
    (hfl : firstLive l = some cand) (hs : c.sock = none) (hr : c.reg = none) :
    stList (attemptSync l c).2 = [] ∧
    freeCount (attemptSync l c).2 = 0 ∧
    createCount (attemptSync l c).2 = closeCount (attemptSync l c).2 + 1 ∧
    ∃ s, (attemptSync l c).1.sock = some s ∧
      (attemptSync l c).1.reg = some ⟨some s, l, .Out⟩ := by
  induction l generalizing c cand with
  | nil => simp [firstLive] at hfl
  | cons cd rest ih =>
    by_cases hcd : cd = Cand.evtFail ∨ cd = Cand.ok
    · have : cand = cd := by
        rw [firstLive_cons_live cd rest hcd] at hfl
        exact (Option.some.injEq _ _ ▸ hfl.symm)
      cases hcd with
      | inl he =>
        subst he
        refine ⟨by simp [attemptSync, stList], by simp [attemptSync, freeCount],
          by simp [attemptSync, createCount, closeCount], c.nextId, ?_, ?_⟩
        · simp [attemptSync]
        · simp [attemptSync]
      | inr he =>
        subst he
        refine ⟨by simp [attemptSync, stList], by simp [attemptSync, freeCount],
          by simp [attemptSync, createCount, closeCount], c.nextId, ?_, ?_⟩
        · simp [attemptSync]
        · simp [attemptSync]
    · have hfl2 : firstLive rest = some cand := by
        rw [firstLive_cons_dead cd rest hcd] at hfl
        exact hfl
      cases cd with
      | evtFail => exact absurd (Or.inl rfl) hcd
      | ok => exact absurd (Or.inr rfl) hcd
      | createFail =>
        cases ha : attemptSync rest { c with sock := none } with
        | mk c1 acts =>
          have ihh := ih { c with sock := none } cand hfl2 rfl hr
          rw [ha] at ihh
          obtain ⟨h1, h2, h3, s, h4, _⟩ := ihh
          simp only at h1 h2 h3 h4
          refine ⟨?_, ?_, ?_, s, ?_, ?_⟩
          · simp only [attemptSync, ha, stList_append, h1]
            simp [stList]
          · simp only [attemptSync, ha, freeCount_append, h2]
            simp [freeCount]
          · simp only [attemptSync, ha, createCount_append, closeCount_append, h3]
            simp [createCount, closeCount]
          · simp only [attemptSync, ha]
            exact h4
          · simp only [attemptSync, ha, h4]
      | prepFail =>
        cases ha : attemptSync rest { c with sock := none, nextId := c.nextId + 1 } with
        | mk c1 acts =>
          have ihh := ih { c with sock := none, nextId := c.nextId + 1 } cand hfl2 rfl hr
          rw [ha] at ihh
          obtain ⟨h1, h2, h3, s, h4, _⟩ := ihh
          simp only at h1 h2 h3 h4
          refine ⟨?_, ?_, ?_, s, ?_, ?_⟩
          · simp only [attemptSync, ha, List.append_assoc, stList_append, h1]
            simp [stList]
          · simp only [attemptSync, ha, List.append_assoc, freeCount_append, h2]
            simp [freeCount]
          · simp only [attemptSync, ha, List.append_assoc, createCount_append,
              closeCount_append, h3]
            simp [createCount, closeCount]
            omega
          · simp only [attemptSync, ha]
            exact h4
          · simp only [attemptSync, ha, h4]

/-- When no candidate can connect, the whole event-driven chain started from
a fresh engine state ends with exactly the Failed transition, exactly one
release of the candidate list, as many socket closes as creations, and the
invalid sentinel in the handle. -/
theorem drive_fail (fuel : Nat) : ∀ (l : List Cand) (c : CSt),
    Cand.ok ∉ l → l.length < fuel → c.sock = none → c.reg = none →
    stList ((attemptSync l c).2 ++ (pumpFuel fuel (attemptSync l c).1).2) =
      [.Failed] ∧
    freeCount ((attemptSync l c).2 ++ (pumpFuel fuel (attemptSync l c).1).2) = 1 ∧
    createCount ((attemptSync l c).2 ++ (pumpFuel fuel (attemptSync l c).1).2) =
      closeCount ((attemptSync l c).2 ++ (pumpFuel fuel (attemptSync l c).1).2) ∧
    (pumpFuel fuel (attemptSync l c).1).1.sock = none := by
  induction fuel with
  | zero => intro l c _ hlen _ _; omega
  | succ f ihf =>
    intro l c hok hlen hs hr
    cases hfl : firstLive l with
    | none =>
      obtain ⟨h1, h2, h3, h4, h5⟩ := attempt_dead l c hfl hs hr
      have hpump : pumpFuel (f + 1) (attemptSync l c).1 = ((attemptSync l c).1, []) := by
        cases h5 with
        | inl hn => simp [pumpFuel, hn]
        | inr hn => simp [pumpFuel, hn]
      rw [hpump]
      simp only [List.append_nil]
      exact ⟨h1, h2, h3, h4⟩
    | some cand =>
      obtain ⟨hmem, hpred⟩ := firstLive_mem l cand hfl
      have hcand : cand = Cand.evtFail := by
        cases hpred with
        | inl he => exact he
        | inr he => exact absurd (he ▸ hmem) hok
      subst hcand
      obtain ⟨h1, h2, h3, s, h4, h5⟩ := attempt_live l c .evtFail hfl hs hr
      have hlne : l ≠ [] := by
        intro hcon
        rw [hcon] at hfl
        simp [firstLive] at hfl
      have htail_ok : Cand.ok ∉ l.tail := fun hmem2 => hok (List.mem_of_mem_tail hmem2)
      have htail_len : l.tail.length < f := by
        have := List.length_tail l
        cases l with
        | nil => exact absurd rfl hlne
        | cons a as => simp at hlen ⊢; omega
      have ihh := ihf l.tail ⟨none, (attemptSync l c).1.nextId, none⟩ htail_ok htail_len rfl rfl
      cases ha1 : attemptSync l.tail ⟨none, (attemptSync l c).1.nextId, none⟩ with
      | mk c1 acts1 =>
        cases ha2 : pumpFuel f c1 with
        | mk c2 acts2 =>
          rw [ha1, ha2] at ihh
          simp only at ihh
          obtain ⟨g1, g2, g3, g4⟩ := ihh
          have hpump : pumpFuel (f + 1) (attemptSync l c).1 =
              (c2, [.pollRemove (some s), .sockClose s] ++ acts1 ++ acts2) := by
            simp [pumpFuel, h5, hfl, ha1, ha2]
          rw [hpump]
          simp only [stList_append, freeCount_append, createCount_append,
            closeCount_append, List.append_assoc] at g1 g2 g3 ⊢
          rw [h1, h2, h3]
          simp only [stList, freeCount, createCount, closeCount, List.filterMap_cons,
            List.filter_cons] at g1 g2 g3 ⊢
          refine ⟨by simpa using g1, by simpa using g2, by simp at g3 ⊢; omega, g4⟩

/-- C7: for every candidate list in which no candidate is connectable, the
engine transitions Connecting then Failed exactly once (and to no other
state), releases the candidate list exactly once, closes every socket it
created, and finishes with the invalid sentinel in the handle. -/
theorem c7_all_fail (cands : List Cand) (hok : Cand.ok ∉ cands) :
    stList (connectRun cands).2 = [.Connecting, .Failed] ∧
    freeCount (connectRun cands).2 = 1 ∧
    createCount (connectRun cands).2 = closeCount (connectRun cands).2 ∧
    (connectRun cands).1.sock = none := by
  have h := drive_fail (cands.length + 1) cands ⟨none, 0, none⟩ hok
    (by omega) rfl rfl
  obtain ⟨h1, h2, h3, h4⟩ := h
  refine ⟨?_, ?_, ?_, ?_⟩
  · simp only [connectRun, stList, List.filterMap_cons] at *
    simpa using h1
  · simp only [connectRun, freeCount, List.filter_cons] at *
    simpa using h2
  · simp only [connectRun, createCount, closeCount, List.filter_cons] at *
    simpa using h3
  · simp only [connectRun]
    exact h4

theorem c7_all_fail_witness :
    (Cand.ok ∉ [Cand.prepFail, Cand.evtFail]) ∧
    (stList (connectRun [Cand.prepFail, Cand.evtFail]).2 =
        [.Connecting, .Failed] ∧
      freeCount (connectRun [Cand.prepFail, Cand.evtFail]).2 = 1 ∧
      createCount (connectRun [Cand.prepFail, Cand.evtFail]).2 =
        closeCount (connectRun [Cand.prepFail, Cand.evtFail]).2 ∧
      (connectRun [Cand.prepFail, Cand.evtFail]).1.sock = none) :=
  ⟨by decide, c7_all_fail [Cand.prepFail, Cand.evtFail] (by decide)⟩

/-- Any registration left by an attempt cascade is under the handle the
cascade finished with. -/
theorem attempt_reg (l : List Cand) (c : CSt) (hr : c.reg = none) :
    (attemptSync l c).1.reg = none ∨
    ∃ suf, (attemptSync l c).1.reg =
      some ⟨(attemptSync l c).1.sock, suf, .Out⟩ := by
  cases l with
  | nil => exact Or.inl (by simp [attemptSync, hr])
  | cons cand rest =>
    cases cand with
    | createFail =>
      cases ha : attemptSync rest { c with sock := none } with
      | mk c1 acts =>
        exact Or.inr ⟨Cand.createFail :: rest, by simp [attemptSync, ha]⟩
    | prepFail =>
      cases ha : attemptSync rest { c with sock := none, nextId := c.nextId + 1 } with
      | mk c1 acts =>
        exact Or.inr ⟨Cand.prepFail :: rest, by simp [attemptSync, ha]⟩
    | evtFail => exact Or.inr ⟨Cand.evtFail :: rest, by simp [attemptSync]⟩
    | ok => exact Or.inr ⟨Cand.ok :: rest, by simp [attemptSync]⟩

/-- The socket discipline holds along any attempt cascade started with the
invalid sentinel: at most one socket is ever open, a socket is closed only
while unregistered, and at the end exactly the resulting handle is open. -/
theorem attempt_chk (l : List Cand) (c : CSt) (hs : c.sock = none)
    (hr : c.reg = none) :
    chkRun ⟨none, false⟩ (attemptSync l c).2 =
      some ⟨(attemptSync l c).1.sock, (attemptSync l c).1.sock.isSome⟩ := by
  induction l generalizing c with
  | nil => simp [attemptSync, chkRun, chkStep, hs]
  | cons cand rest ih =>
    cases cand with
    | createFail =>
      cases ha : attemptSync rest { c with sock := none } with
      | mk c1 acts =>
        have ihh := ih { c with sock := none } rfl hr
        rw [ha] at ihh
        simp only at ihh
        simp only [attemptSync, ha]
        rw [chkRun_append, ihh]
        cases hc1 : c1.sock with
        | none => simp [chkRun, chkStep]
        | some s => simp [chkRun, chkStep]
    | prepFail =>
      cases ha : attemptSync rest { c with sock := none, nextId := c.nextId + 1 } with
      | mk c1 acts =>
        have ihh := ih { c with sock := none, nextId := c.nextId + 1 } rfl hr
        rw [ha] at ihh
        simp only at ihh
        simp only [attemptSync, ha, List.cons_append, List.nil_append]
        simp only [chkRun, chkStep, and_self, reduceIte]
        rw [chkRun_append, ihh]
        cases hc1 : c1.sock with
        | none => simp [chkRun, chkStep]
        | some s => simp [chkRun, chkStep]
    | evtFail => simp [attemptSync, chkRun, chkStep]
    | ok => simp [attemptSync, chkRun, chkStep]

/-- The socket discipline holds along the event-driven part of the chain. -/
theorem pump_chk (fuel : Nat) : ∀ (c : CSt),
    (∀ s suf d, c.reg = some ⟨some s, suf, d⟩ → c.sock = some s) →
    chkRun ⟨c.sock, c.sock.isSome⟩ (pumpFuel fuel c).2 =
      some ⟨(pumpFuel fuel c).1.sock, (pumpFuel fuel c).1.sock.isSome⟩ := by
  induction fuel with
  | zero => intro c _; simp [pumpFuel, chkRun]
  | succ f ihf =>
    intro c hinv
    cases hreg : c.reg with
    | none => simp [pumpFuel, hreg, chkRun]
    | some r =>
      obtain ⟨rs, suffix, dir⟩ := r
      cases rs with
      | none => simp [pumpFuel, hreg, chkRun]
      | some s =>
        cases dir with
        | In => simp [pumpFuel, hreg, chkRun]
        | Both => simp [pumpFuel, hreg, chkRun]
        | Out =>
          have hcs : c.sock = some s := hinv s suffix .Out hreg
          cases hfl : firstLive suffix with
          | none => simp [pumpFuel, hreg, hfl, chkRun]
          | some cand =>
            cases cand with
            | createFail => simp [pumpFuel, hreg, hfl, chkRun]
            | prepFail => simp [pumpFuel, hreg, hfl, chkRun]
            | ok => simp [pumpFuel, hreg, hfl, chkRun, chkStep, hcs]
            | evtFail =>
              cases ha1 : attemptSync suffix.tail ⟨none, c.nextId, none⟩ with
              | mk c1 acts1 =>
                cases ha2 : pumpFuel f c1 with
                | mk c2 acts2 =>
                  have hchk1 := attempt_chk suffix.tail ⟨none, c.nextId, none⟩ rfl rfl
                  rw [ha1] at hchk1
                  simp only at hchk1
                  have hinv1 : ∀ s2 suf2 d2,
                      c1.reg = some ⟨some s2, suf2, d2⟩ → c1.sock = some s2 := by
                    intro s2 suf2 d2 hr2
                    cases attempt_reg suffix.tail ⟨none, c.nextId, none⟩ rfl with
                    | inl hn =>
                      rw [ha1] at hn
                      simp only at hn
                      rw [hn] at hr2
                      exact Option.noConfusion hr2
                    | inr hex =>
                      obtain ⟨suf3, he⟩ := hex
                      rw [ha1] at he
                      simp only at he
                      rw [he] at hr2
                      simp only [Option.some.injEq, Reg.mk.injEq] at hr2
                      exact hr2.1
                  have ihh := ihf c1 hinv1
                  rw [ha2] at ihh
                  simp only at ihh
                  have hpump : pumpFuel (f + 1) c =
                      (c2, [.pollRemove (some s), .sockClose s] ++ acts1 ++ acts2) := by
                    simp [pumpFuel, hreg, hfl, ha1, ha2]
                  rw [hpump]
                  simp only [List.cons_append, List.nil_append, List.append_assoc]
                  rw [hcs]
                  simp only [chkRun, chkStep, Option.isSome_some, and_self, reduceIte]
                  rw [chkRun_append, hchk1]
                  exact ihh

/-- C2: during the whole candidate chain of an active connect, at most one
socket handle exists at any time: creations only happen with no socket open,
a socket is always unregistered from the poll service before being closed,
and at the end exactly the transport's current handle (live or the invalid
sentinel) remains. -/
theorem c2_single_socket (cands : List Cand) :
    chkRun ⟨none, false⟩ (connectRun cands).2 =
      some ⟨(connectRun cands).1.sock, (connectRun cands).1.sock.isSome⟩ := by
  cases ha1 : attemptSync cands ⟨none, 0, none⟩ with
  | mk c1 acts1 =>
    cases ha2 : pumpFuel (cands.length + 1) c1 with
    | mk c2 acts2 =>
      have hchk1 := attempt_chk cands ⟨none, 0, none⟩ rfl rfl
      rw [ha1] at hchk1
      simp only at hchk1
      have hinv1 : ∀ s2 suf2 d2,
          c1.reg = some ⟨some s2, suf2, d2⟩ → c1.sock = some s2 := by
        intro s2 suf2 d2 hr2
        cases attempt_reg cands ⟨none, 0, none⟩ rfl with
        | inl hn =>
          rw [ha1] at hn
          simp only at hn
          rw [hn] at hr2
          exact Option.noConfusion hr2
        | inr hex =>
          obtain ⟨suf3, he⟩ := hex
          rw [ha1] at he
          simp only at he
          rw [he] at hr2
          simp only [Option.some.injEq, Reg.mk.injEq] at hr2
          exact hr2.1
      have hchk2 := pump_chk (cands.length + 1) c1 hinv1
      rw [ha2] at hchk2
      simp only at hchk2
      simp only [connectRun, ha1, ha2]
      simp only [chkRun, chkStep]
      rw [chkRun_append, hchk1]
      exact hchk2

/-- C3 (evaluation at the failing input): for a single candidate whose
non-blocking connect fails immediately with a hard error, the engine does
advance (to exhaustion, hence Failed), but - the catch block of the attempt
closure missing a return - it then still performs a readiness-notifier
registration in the failed candidate's frame, visible as the pollAdd issued
after the Failed transition (under the then-current handle, here the invalid
sentinel). -/
theorem c3_registration_after_failure :
    (connectRun [Cand.prepFail]).2 =
      [.stChange .Connecting, .sockCreate 0, .sockClose 0, .freeList,
        .stChange .Failed, .pollAdd none .Out] := by decide

theorem c5_close_stop_idempotent_witness :
    (close ⟨some 7, .Connecting, [[1]]⟩).1.sock = none ∧
    stop (stop ⟨⟨some 7, .Connecting, [[1]]⟩, false⟩).1 =
      ((stop ⟨⟨some 7, .Connecting, [[1]]⟩, false⟩).1, false, []) :=
  ⟨(c5_close_stop_idempotent.1 ⟨some 7, .Connecting, [[1]]⟩).1,
   (c5_close_stop_idempotent.2 ⟨⟨some 7, .Connecting, [[1]]⟩, false⟩ rfl).2.2.2⟩

end Tcp
